import Mathlib

/-!
Verification of the mmd-rs binary decoding layer.

The development shallowly embeds the decoding primitives of
`src/pmx/reader/helpers.rs` and the VMD motion-format reader of
`src/vmd/mod.rs`.  A byte source is a `List Nat` consumed front to back
(the Rust readers consume an `io::Read` cursor the same way); fallible
reads return `Except Error`, mirroring `crate::Result`.  `f32` fields are
represented by their 32-bit little-endian bit patterns, since the readers
move float bytes without performing any floating-point arithmetic on them.

The text decoders model the documented behavior of the `encoding_rs`
library calls used by the source: `Encoding::decode` performs BOM
sniffing (a leading UTF-8 / UTF-16LE / UTF-16BE byte-order mark overrides
the nominal encoding and is stripped) and then runs the WHATWG decoder
for the selected encoding, reporting whether any malformed sequence was
replaced.  The Shift-JIS double-byte index (jis0208) is modelled
partially: only the rows exercised by the theorems are mapped, and every
other pointer is treated as unmapped.
-/

namespace Mmd

/-- A byte stream: bytes are naturals consumed front to back. -/
abbrev Bytes := List Nat

/-- Model of `crate::Error`: the error taxonomy shared by the readers.
`Io` stands for any propagated short-read or source failure. -/
inductive Error where
  | InvalidHeader : Error
  | DecodeText : String → Error
  | IndexOverflow : Int → Error
  | Io : Error
deriving Repr, DecidableEq

instance {ε α : Type} [DecidableEq ε] [DecidableEq α] : DecidableEq (Except ε α) := by
  intro a b
  cases a <;> cases b <;> first
    | (apply isFalse; intro h; exact Except.noConfusion h)
    | (rename_i x y
       exact if h : x = y then isTrue (by rw [h]) else
         isFalse (by intro hc; cases hc; exact h rfl))

/-- Model of `Read::read_exact`: take exactly `n` bytes or fail with an
I/O error when the source is exhausted. -/
def readExact (n : Nat) (s : Bytes) : Except Error (Bytes × Bytes) :=
  if n ≤ s.length then Except.ok (s.take n, s.drop n) else Except.error Error.Io

/-- Little-endian value of a byte list (first byte least significant). -/
def leNat (l : Bytes) : Nat := l.foldr (fun b acc => b + 256 * acc) 0

/-- Two's-complement reinterpretation of an 8-bit value. -/
def toI8 (m : Nat) : Int :=
  if m % 256 < 128 then (m % 256 : Nat) else (m % 256 : Nat) - 256

/-- Two's-complement reinterpretation of a 16-bit value. -/
def toI16 (m : Nat) : Int :=
  if m % 65536 < 32768 then (m % 65536 : Nat) else (m % 65536 : Nat) - 65536

/-- Two's-complement reinterpretation of a 32-bit value. -/
def toI32 (m : Nat) : Int :=
  if m % 4294967296 < 2147483648 then (m % 4294967296 : Nat)
  else (m % 4294967296 : Nat) - 4294967296

/-- Model of `byteorder` `read_u8`. -/
def readU8 (s : Bytes) : Except Error (Nat × Bytes) := do
  let (b, s1) ← readExact 1 s
  pure (leNat b, s1)

/-- Model of `byteorder` `read_u16::<LE>`. -/
def readU16LE (s : Bytes) : Except Error (Nat × Bytes) := do
  let (b, s1) ← readExact 2 s
  pure (leNat b, s1)

/-- Model of `byteorder` `read_u32::<LE>`. -/
def readU32LE (s : Bytes) : Except Error (Nat × Bytes) := do
  let (b, s1) ← readExact 4 s
  pure (leNat b, s1)

/-- Model of `byteorder` `read_i8`. -/
def readI8 (s : Bytes) : Except Error (Int × Bytes) := do
  let (b, s1) ← readExact 1 s
  pure (toI8 (leNat b), s1)

/-- Model of `byteorder` `read_i16::<LE>`. -/
def readI16LE (s : Bytes) : Except Error (Int × Bytes) := do
  let (b, s1) ← readExact 2 s
  pure (toI16 (leNat b), s1)

/-- Model of `byteorder` `read_i32::<LE>`. -/
def readI32LE (s : Bytes) : Except Error (Int × Bytes) := do
  let (b, s1) ← readExact 4 s
  pure (toI32 (leNat b), s1)

/-- The Unicode replacement character emitted by lossy decoding. -/
def replChar : Char := Char.ofNat 0xFFFD

/-- Prepend a decoded code point to a lossy-decoder result. -/
def consC (n : Nat) (p : List Char × Bool) : List Char × Bool :=
  (Char.ofNat n :: p.1, p.2)

/-- Prepend a replacement character and set the malformed flag. -/
def errC (p : List Char × Bool) : List Char × Bool :=
  (replChar :: p.1, true)

/-- Start-state dispatch of the WHATWG UTF-8 decoder: an ASCII byte is
emitted, a valid lead byte opens a multi-byte sequence (carrying the
accumulated code point bits, the number of continuation bytes still
needed, and the admissible range of the next byte), anything else is an
error. -/
inductive U8Next where
  | emit : Nat → U8Next
  | lead : Nat → Nat → Nat → Nat → U8Next
  | bad : U8Next
deriving Repr, DecidableEq

/-- Classification of a byte seen in the start state of the WHATWG UTF-8
decoder. -/
def utf8Classify (b : Nat) : U8Next :=
  if b ≤ 0x7F then U8Next.emit b
  else if 0xC2 ≤ b ∧ b ≤ 0xDF then U8Next.lead (b - 0xC0) 1 0x80 0xBF
  else if 0xE0 ≤ b ∧ b ≤ 0xEF then
    U8Next.lead (b - 0xE0) 2 (if b = 0xE0 then 0xA0 else 0x80)
      (if b = 0xED then 0x9F else 0xBF)
  else if 0xF0 ≤ b ∧ b ≤ 0xF4 then
    U8Next.lead (b - 0xF0) 3 (if b = 0xF0 then 0x90 else 0x80)
      (if b = 0xF4 then 0x8F else 0xBF)
  else U8Next.bad

/-- The WHATWG UTF-8 decoder as a byte-per-step state machine: `cp` holds
the accumulated code point bits, `needed` the number of continuation
bytes still expected, `lower`/`upper` the admissible range of the next
continuation byte.  A byte outside that range emits a replacement
character and is reprocessed in the start state (the maximal-subpart
rule); end of input in the middle of a sequence is an error. -/
def utf8Run (cp needed lower upper : Nat) : Bytes → List Char × Bool
  | [] => if needed = 0 then ([], false) else ([replChar], true)
  | b :: rest =>
    if needed = 0 then
      match utf8Classify b with
      | U8Next.emit c => consC c (utf8Run 0 0 0x80 0xBF rest)
      | U8Next.lead cp2 k lo hi => utf8Run cp2 k lo hi rest
      | U8Next.bad => errC (utf8Run 0 0 0x80 0xBF rest)
    else if lower ≤ b ∧ b ≤ upper then
      if needed = 1 then consC (cp * 64 + (b - 0x80)) (utf8Run 0 0 0x80 0xBF rest)
      else utf8Run (cp * 64 + (b - 0x80)) (needed - 1) 0x80 0xBF rest
    else
      errC (match utf8Classify b with
        | U8Next.emit c => consC c (utf8Run 0 0 0x80 0xBF rest)
        | U8Next.lead cp2 k lo hi => utf8Run cp2 k lo hi rest
        | U8Next.bad => errC (utf8Run 0 0 0x80 0xBF rest))

/-- WHATWG UTF-8 decoding (lossy form): the decoded characters and
whether any malformed sequence was replaced. -/
def utf8Lossy (s : Bytes) : List Char × Bool := utf8Run 0 0 0x80 0xBF s

/-- Strict UTF-8 decoding, the model of `std::str::from_utf8`: succeeds
with the decoded characters exactly when the WHATWG decoder reports no
malformed sequence. -/
def utf8Strict (s : Bytes) : Option (List Char) :=
  match utf8Lossy s with
  | (cs, false) => some cs
  | (_, true) => none

/-- The WHATWG shared UTF-16 decoder as a byte-per-step state machine.
`hiFirst` selects big-endian code units; `leadB` holds a pending first
byte of a unit, `leadS` a pending lead surrogate.  A unit that fails to
complete a surrogate pair emits a replacement character and is
reprocessed as a fresh unit; end of input with a pending byte or lead
surrogate is a single error. -/
def utf16Run (hiFirst : Bool) (leadB leadS : Option Nat) : Bytes → List Char × Bool
  | [] => if leadB = none ∧ leadS = none then ([], false) else ([replChar], true)
  | b :: rest =>
    match leadB with
    | none => utf16Run hiFirst (some b) leadS rest
    | some lb =>
      let u := if hiFirst then 256 * lb + b else lb + 256 * b
      match leadS with
      | some ls =>
        if 0xDC00 ≤ u ∧ u ≤ 0xDFFF then
          consC (0x10000 + (ls - 0xD800) * 1024 + (u - 0xDC00))
            (utf16Run hiFirst none none rest)
        else
          errC (if u < 0xD800 ∨ 0xDFFF < u then consC u (utf16Run hiFirst none none rest)
            else if u ≤ 0xDBFF then utf16Run hiFirst none (some u) rest
            else errC (utf16Run hiFirst none none rest))
      | none =>
        if u < 0xD800 ∨ 0xDFFF < u then consC u (utf16Run hiFirst none none rest)
        else if u ≤ 0xDBFF then utf16Run hiFirst none (some u) rest
        else errC (utf16Run hiFirst none none rest)

/-- Lossy UTF-16 little-endian decoding. -/
def utf16leLossy (s : Bytes) : List Char × Bool := utf16Run false none none s

/-- Lossy UTF-16 big-endian decoding. -/
def utf16beLossy (s : Bytes) : List Char × Bool := utf16Run true none none s

/-- Partial model of the WHATWG jis0208 index used by the Shift-JIS
decoder.  Only the rows exercised by the theorems are mapped: pointer 27
(the prolonged sound mark) and pointers 376-458 (the full-width katakana
row).  Every other pointer is treated as unmapped, so inputs outside the
modelled rows decode to errors rather than to the real kanji. -/
def jis0208Model (p : Nat) : Option Nat :=
  if p = 27 then some 0x30FC
  else if 376 ≤ p ∧ p ≤ 458 then some (0x30A1 + (p - 376))
  else none

/-- The WHATWG Shift-JIS decoder as a byte-per-step state machine, using
the partial jis0208 index model.  In the start state (`lead = none`)
ASCII and 0x80 pass through, 0xA1-0xDF map to half-width katakana,
0x81-0x9F and 0xE0-0xFC open a double-byte sequence, anything else is an
error.  With a pending lead byte the trail byte selects an index pointer;
an ASCII byte that fails a double-byte sequence is emitted after the
error (it is restored and reprocessed, and ASCII bytes always emit
themselves in the start state). -/
def sjisRun (lead : Option Nat) : Bytes → List Char × Bool
  | [] => if lead = none then ([], false) else ([replChar], true)
  | b :: rest =>
    match lead with
    | none =>
      if b ≤ 0x80 then consC b (sjisRun none rest)
      else if 0xA1 ≤ b ∧ b ≤ 0xDF then consC (0xFF61 - 0xA1 + b) (sjisRun none rest)
      else if (0x81 ≤ b ∧ b ≤ 0x9F) ∨ (0xE0 ≤ b ∧ b ≤ 0xFC) then sjisRun (some b) rest
      else errC (sjisRun none rest)
    | some l =>
      if (0x40 ≤ b ∧ b ≤ 0x7E) ∨ (0x80 ≤ b ∧ b ≤ 0xFC) then
        let offset := if b < 0x7F then 0x40 else 0x41
        let leadOffset := if l < 0xA0 then 0x81 else 0xC1
        let pointer := (l - leadOffset) * 188 + b - offset
        if 8836 ≤ pointer ∧ pointer ≤ 10715 then
          consC (0xE000 - 8836 + pointer) (sjisRun none rest)
        else
          match jis0208Model pointer with
          | some cp => consC cp (sjisRun none rest)
          | none =>
            if b ≤ 0x7F then errC (consC b (sjisRun none rest))
            else errC (sjisRun none rest)
      else
        if b ≤ 0x7F then errC (consC b (sjisRun none rest))
        else errC (sjisRun none rest)

/-- WHATWG Shift-JIS decoding (lossy form, before BOM sniffing). -/
def sjisRaw (s : Bytes) : List Char × Bool := sjisRun none s

/-- Model of the BOM sniffing performed by `encoding_rs::Encoding::decode`:
a leading UTF-8, UTF-16LE or UTF-16BE byte-order mark selects that
encoding (stripping the mark) regardless of the nominal encoding;
otherwise the nominal decoder is used. -/
def decodeBomSniff (fb : Bytes → List Char × Bool) (s : Bytes) : List Char × Bool :=
  if s.take 3 = [0xEF, 0xBB, 0xBF] then utf8Lossy (s.drop 3)
  else if s.take 2 = [0xFF, 0xFE] then utf16leLossy (s.drop 2)
  else if s.take 2 = [0xFE, 0xFF] then utf16beLossy (s.drop 2)
  else fb s

/-- Model of `SHIFT_JIS.decode` from `encoding_rs`. -/
def sjisDecode : Bytes → List Char × Bool := decodeBomSniff sjisRaw

/-- Model of `UTF_8.decode` from `encoding_rs`. -/
def utf8Rs : Bytes → List Char × Bool := decodeBomSniff utf8Lossy

/-- Model of `UTF_16LE.decode` from `encoding_rs`. -/
def utf16leRs : Bytes → List Char × Bool := decodeBomSniff utf16leLossy

/-- Modelled from the spec: the `TextEncoding` enumeration of
`pmx/types.rs` (not under `src/`) — "UTF-8 | UTF-16 little-endian",
supplied per call. -/
inductive TextEncoding where
  | UTF8 : TextEncoding
  | UTF16LE : TextEncoding
deriving Repr, DecidableEq

/-- The `encoding_rs` decoder selected by a declared text encoding in
`read_text`. -/
def decodeRs (enc : TextEncoding) : Bytes → List Char × Bool :=
  match enc with
  | TextEncoding.UTF8 => utf8Rs
  | TextEncoding.UTF16LE => utf16leRs

/-- Reinterpretation of an `i32` as a 64-bit `usize`, the effect of
`size as usize` on the 64-bit targets the crate builds for. -/
def usizeOfI32 (i : Int) : Nat := (i % (18446744073709551616 : Int)).toNat

/-- Model of `ReadHelpers::read_text` (`pmx/reader/helpers.rs`): read a
4-byte little-endian signed length, read that many bytes (the length cast
to `usize`), decode them with the `encoding_rs` decoder for the declared
encoding, and fail with `DecodeText` exactly when the decoder reports
malformed input. -/
def readText (enc : TextEncoding) (s : Bytes) : Except Error (String × Bytes) := do
  let (szRaw, s1) ← readI32LE s
  let (buf, s2) ← readExact (usizeOfI32 szRaw) s1
  let p := decodeRs enc buf
  if p.2 then Except.error (Error.DecodeText "malformed text")
  else pure (String.mk p.1, s2)

/-- Modelled from the spec: the `IndexSize` enumeration of
`pmx/types.rs` (not under `src/`) — the per-document 8/16/32-bit index
width. -/
inductive IndexSize where
  | I8 : IndexSize
  | I16 : IndexSize
  | I32 : IndexSize
deriving Repr, DecidableEq

/-- Modelled from the spec: the `Index` / `VertexIndex` conversion
capability of `pmx/types.rs` (not under `src/`).  A caller-chosen integer
index type is characterized by its representable range `[lo, hi]`; the
fallible `try_from` conversion succeeds with the exact value when it is
in range and fails otherwise, as the standard fallible narrowing
conversions on integer types do. -/
structure IndexTarget where
  lo : Int
  hi : Int
deriving Repr, DecidableEq

/-- Fallible conversion into a target index type: exact in range, failure
out of range. -/
def IndexTarget.tryFrom (t : IndexTarget) (v : Int) : Option Int :=
  if t.lo ≤ v ∧ v ≤ t.hi then some v else none

/-- Model of `ReadHelpers::read_index`: read a signed raw value of the
declared width, then convert it into the target index type, reporting
`IndexOverflow` with the raw value on conversion failure. -/
def readIndex (t : IndexTarget) (size : IndexSize) (s : Bytes) :
    Except Error (Int × Bytes) :=
  match size with
  | IndexSize.I8 => do
      let (v, s1) ← readI8 s
      match t.tryFrom v with
      | some i => pure (i, s1)
      | none => Except.error (Error.IndexOverflow v)
  | IndexSize.I16 => do
      let (v, s1) ← readI16LE s
      match t.tryFrom v with
      | some i => pure (i, s1)
      | none => Except.error (Error.IndexOverflow v)
  | IndexSize.I32 => do
      let (v, s1) ← readI32LE s
      match t.tryFrom v with
      | some i => pure (i, s1)
      | none => Except.error (Error.IndexOverflow v)

/-- Model of `ReadHelpers::read_vertex_index`: like `read_index` but the
8- and 16-bit widths read unsigned raw values; the 32-bit width stays
signed. -/
def readVertexIndex (t : IndexTarget) (size : IndexSize) (s : Bytes) :
    Except Error (Int × Bytes) :=
  match size with
  | IndexSize.I8 => do
      let (v, s1) ← readU8 s
      match t.tryFrom (v : Int) with
      | some i => pure (i, s1)
      | none => Except.error (Error.IndexOverflow (v : Int))
  | IndexSize.I16 => do
      let (v, s1) ← readU16LE s
      match t.tryFrom (v : Int) with
      | some i => pure (i, s1)
      | none => Except.error (Error.IndexOverflow (v : Int))
  | IndexSize.I32 => do
      let (v, s1) ← readI32LE s
      match t.tryFrom v with
      | some i => pure (i, s1)
      | none => Except.error (Error.IndexOverflow v)

/-- Model of `vmd::read_string`: read a fixed-width field, truncate it at
the first null byte (`position` of the first `0`, defaulting to the full
size), decode with `SHIFT_JIS.decode`; on malformed input try strict
UTF-8, and if that also fails keep the lossy Shift-JIS result. -/
def readString (size : Nat) (s : Bytes) : Except Error (String × Bytes) := do
  let (buf0, s1) ← readExact size s
  let buf := buf0.take (buf0.findIdx (fun b => b == 0))
  let p := sjisDecode buf
  let out :=
    if p.2 then
      match utf8Strict buf with
      | some cs => String.mk cs
      | none => String.mk p.1
    else String.mk p.1
  pure (out, s1)

/-- The `VMD_HEADER` magic byte constant, `"Vocaloid Motion Data 0002\0"`
(26 bytes). -/
def VMD_HEADER_BYTES : Bytes :=
  [86, 111, 99, 97, 108, 111, 105, 100, 32, 77, 111, 116, 105, 111, 110,
   32, 68, 97, 116, 97, 32, 48, 48, 48, 50, 0]

/-- Model of `vmd::VmdHeader`. -/
structure VmdHeader where
  model_name : String
deriving Repr, DecidableEq

/-- Model of `VmdHeader::read`: read 30 bytes, compare the first
`VMD_HEADER.len()` of them against the magic, fail with `InvalidHeader`
on mismatch, then read the 20-byte model-name field. -/
def VmdHeader.read (s : Bytes) : Except Error (VmdHeader × Bytes) := do
  let (buf, s1) ← readExact 30 s
  if buf.take VMD_HEADER_BYTES.length ≠ VMD_HEADER_BYTES then
    Except.error Error.InvalidHeader
  else do
    let (model_name, s2) ← readString 20 s1
    pure ({ model_name := model_name }, s2)

/-- Model of `vmd::read_vec::<N>`: read `n` little-endian 32-bit floats,
kept as their bit patterns. -/
def readVecN : Nat → Bytes → Except Error (List Nat × Bytes)
  | 0, s => pure ([], s)
  | n + 1, s => do
      let (x, s1) ← readU32LE s
      let (xs, s2) ← readVecN n s1
      pure (x :: xs, s2)

/-- Model of `vmd::MotionFrame`; `position` and `rotation` hold the three
and four `f32` bit patterns, `interpolation` the 64 raw bytes. -/
structure MotionFrame where
  name : String
  frame_no : Nat
  position : List Nat
  rotation : List Nat
  interpolation : Bytes
deriving Repr, DecidableEq

/-- Model of `MotionFrame::read`: a 15-byte Shift-JIS name field, the
frame number, the position and rotation vectors, and 64 raw
interpolation bytes, in that order. -/
def MotionFrame.read (s : Bytes) : Except Error (MotionFrame × Bytes) := do
  let (name, s1) ← readString 15 s
  let (frame_no, s2) ← readU32LE s1
  let (position, s3) ← readVecN 3 s2
  let (rotation, s4) ← readVecN 4 s3
  let (interpolation, s5) ← readExact 64 s4
  pure ({ name := name, frame_no := frame_no, position := position,
          rotation := rotation, interpolation := interpolation }, s5)

/-- The shared `read_all` loop shape: read a 32-bit little-endian count,
then that many records in order.  `readN` is the counted loop. -/
def readN {α : Type} (rd : Bytes → Except Error (α × Bytes)) :
    Nat → Bytes → Except Error (List α × Bytes)
  | 0, s => pure ([], s)
  | n + 1, s => do
      let (a, s1) ← rd s
      let (as, s2) ← readN rd n s1
      pure (a :: as, s2)

/-- Model of `MotionFrame::read_all`. -/
def MotionFrame.read_all (s : Bytes) : Except Error (List MotionFrame × Bytes) := do
  let (total, s1) ← readU32LE s
  readN MotionFrame.read total s1

/-- Model of `vmd::SkinFrame` (23 raw bytes). -/
structure SkinFrame where
  unknown : Bytes
deriving Repr, DecidableEq

/-- Model of `SkinFrame::read`. -/
def SkinFrame.read (s : Bytes) : Except Error (SkinFrame × Bytes) := do
  let (unknown, s1) ← readExact 23 s
  pure ({ unknown := unknown }, s1)

/-- Model of `SkinFrame::read_all`. -/
def SkinFrame.read_all (s : Bytes) : Except Error (List SkinFrame × Bytes) := do
  let (total, s1) ← readU32LE s
  readN SkinFrame.read total s1

/-- Model of `vmd::CameraFrame` (61 raw bytes). -/
structure CameraFrame where
  unknown : Bytes
deriving Repr, DecidableEq

/-- Model of `CameraFrame::read`. -/
def CameraFrame.read (s : Bytes) : Except Error (CameraFrame × Bytes) := do
  let (unknown, s1) ← readExact 61 s
  pure ({ unknown := unknown }, s1)

/-- Model of `CameraFrame::read_all`. -/
def CameraFrame.read_all (s : Bytes) : Except Error (List CameraFrame × Bytes) := do
  let (total, s1) ← readU32LE s
  readN CameraFrame.read total s1

/-- Model of `vmd::LightFrame` (28 raw bytes). -/
structure LightFrame where
  unknown : Bytes
deriving Repr, DecidableEq

/-- Model of `LightFrame::read`. -/
def LightFrame.read (s : Bytes) : Except Error (LightFrame × Bytes) := do
  let (unknown, s1) ← readExact 28 s
  pure ({ unknown := unknown }, s1)

/-- Model of `LightFrame::read_all`. -/
def LightFrame.read_all (s : Bytes) : Except Error (List LightFrame × Bytes) := do
  let (total, s1) ← readU32LE s
  readN LightFrame.read total s1

/-- Model of `vmd::ShadowFrame` (9 raw bytes). -/
structure ShadowFrame where
  unknown : Bytes
deriving Repr, DecidableEq

/-- Model of `ShadowFrame::read`. -/
def ShadowFrame.read (s : Bytes) : Except Error (ShadowFrame × Bytes) := do
  let (unknown, s1) ← readExact 9 s
  pure ({ unknown := unknown }, s1)

/-- Model of `ShadowFrame::read_all`. -/
def ShadowFrame.read_all (s : Bytes) : Except Error (List ShadowFrame × Bytes) := do
  let (total, s1) ← readU32LE s
  readN ShadowFrame.read total s1

/-- Spec-side description of field truncation: keep everything strictly
before the first null byte. -/
def truncateAtNull (l : Bytes) : Bytes := l.takeWhile (fun b => b != 0)

/-- Spec-side description of the lenient three-tier decoding chain for
fixed-width fields: Shift-JIS first, strict UTF-8 on malformed input,
lossy Shift-JIS as the last resort. -/
def fallbackChain (buf : Bytes) : String :=
  if (sjisDecode buf).2 then
    match utf8Strict buf with
    | some cs => String.mk cs
    | none => String.mk (sjisDecode buf).1
  else String.mk (sjisDecode buf).1

/-- Spec-side offset layout of one motion-frame record inside a byte
stream: name bytes 0-14, frame number 15-18, position 19-30, rotation
31-46, interpolation 47-110. -/
def motionFrameOf (s : Bytes) : MotionFrame :=
  { name := fallbackChain (truncateAtNull (s.take 15))
    frame_no := leNat ((s.drop 15).take 4)
    position := [leNat ((s.drop 19).take 4), leNat ((s.drop 23).take 4),
                 leNat ((s.drop 27).take 4)]
    rotation := [leNat ((s.drop 31).take 4), leNat ((s.drop 35).take 4),
                 leNat ((s.drop 39).take 4), leNat ((s.drop 43).take 4)]
    interpolation := (s.drop 47).take 64 }

/-- UTF-8 encoding of one character (the standard scalar-value layout). -/
def utf8EncodeChar (c : Char) : Bytes :=
  let n := c.toNat
  if n < 0x80 then [n]
  else if n < 0x800 then [0xC0 + n / 64, 0x80 + n % 64]
  else if n < 0x10000 then
    [0xE0 + n / 4096, 0x80 + n / 64 % 64, 0x80 + n % 64]
  else
    [0xF0 + n / 262144, 0x80 + n / 4096 % 64, 0x80 + n / 64 % 64, 0x80 + n % 64]

/-- UTF-8 encoding of a character list. -/
def utf8Encode : List Char → Bytes
  | [] => []
  | c :: cs => utf8EncodeChar c ++ utf8Encode cs

/-- UTF-16LE encoding of one character: one code unit below 0x10000, a
surrogate pair above, each unit as two little-endian bytes. -/
def utf16leEncodeChar (c : Char) : Bytes :=
  let n := c.toNat
  if n < 0x10000 then [n % 256, n / 256]
  else
    let hiUnit := 0xD800 + (n - 0x10000) / 1024
    let loUnit := 0xDC00 + (n - 0x10000) % 1024
    [hiUnit % 256, hiUnit / 256, loUnit % 256, loUnit / 256]

/-- UTF-16LE encoding of a character list. -/
def utf16leEncode : List Char → Bytes
  | [] => []
  | c :: cs => utf16leEncodeChar c ++ utf16leEncode cs

/-- The 4-byte little-endian encoding of a length prefix. -/
def i32leBytes (n : Nat) : Bytes :=
  [n % 256, n / 256 % 256, n / 65536 % 256, n / 16777216 % 256]

/-- A byte buffer that does not begin with any of the three byte-order
marks recognized by `encoding_rs` BOM sniffing. -/
def bomFree (s : Bytes) : Prop :=
  s.take 3 ≠ [0xEF, 0xBB, 0xBF] ∧ s.take 2 ≠ [0xFF, 0xFE] ∧ s.take 2 ≠ [0xFE, 0xFF]

instance (s : Bytes) : Decidable (bomFree s) := by
  unfold bomFree; infer_instance

theorem okBind {ε α β : Type} (a : α) (f : α → Except ε β) :
    (Except.ok a >>= f : Except ε β) = f a := rfl

theorem pureOk {ε α : Type} (a : α) : (pure a : Except ε α) = Except.ok a := rfl

theorem readExact_ok {n : Nat} {s : Bytes} (h : n ≤ s.length) :
    readExact n s = Except.ok (s.take n, s.drop n) := by
  unfold readExact; rw [if_pos h]

theorem readExact_err {n : Nat} {s : Bytes} (h : s.length < n) :
    readExact n s = Except.error Error.Io := by
  unfold readExact; rw [if_neg (by omega)]

theorem readU8_ok {s : Bytes} (h : 1 ≤ s.length) :
    readU8 s = Except.ok (leNat (s.take 1), s.drop 1) := by
  simp only [readU8, readExact_ok h, okBind, pureOk]

theorem readU16LE_ok {s : Bytes} (h : 2 ≤ s.length) :
    readU16LE s = Except.ok (leNat (s.take 2), s.drop 2) := by
  simp only [readU16LE, readExact_ok h, okBind, pureOk]

theorem readU32LE_ok {s : Bytes} (h : 4 ≤ s.length) :
    readU32LE s = Except.ok (leNat (s.take 4), s.drop 4) := by
  simp only [readU32LE, readExact_ok h, okBind, pureOk]

theorem readI8_ok {s : Bytes} (h : 1 ≤ s.length) :
    readI8 s = Except.ok (toI8 (leNat (s.take 1)), s.drop 1) := by
  simp only [readI8, readExact_ok h, okBind, pureOk]

theorem readI16LE_ok {s : Bytes} (h : 2 ≤ s.length) :
    readI16LE s = Except.ok (toI16 (leNat (s.take 2)), s.drop 2) := by
  simp only [readI16LE, readExact_ok h, okBind, pureOk]

theorem readI32LE_ok {s : Bytes} (h : 4 ≤ s.length) :
    readI32LE s = Except.ok (toI32 (leNat (s.take 4)), s.drop 4) := by
  simp only [readI32LE, readExact_ok h, okBind, pureOk]

theorem take_findIdx_eq (l : Bytes) :
    l.take (l.findIdx (fun b => b == 0)) = truncateAtNull l := by
  induction l with
  | nil => rfl
  | cons b t ih =>
    by_cases hb : b = 0
    · subst hb
      simp [List.findIdx_cons, truncateAtNull, List.takeWhile_cons]
    · simp only [List.findIdx_cons, truncateAtNull, List.takeWhile_cons]
      have hbeq : (b == 0) = false := by simp [hb]
      simp only [hbeq, cond_false, List.take_succ_cons]
      rw [ih]
      simp [truncateAtNull, List.takeWhile_cons, hb]

theorem readString_ok {size : Nat} {s : Bytes} (h : size ≤ s.length) :
    readString size s =
      Except.ok (fallbackChain (truncateAtNull (s.take size)), s.drop size) := by
  simp only [readString, readExact_ok h, okBind, take_findIdx_eq]
  rfl

theorem skinFrame_read_ok {s : Bytes} (h : 23 ≤ s.length) :
    SkinFrame.read s = Except.ok ({ unknown := s.take 23 }, s.drop 23) := by
  simp only [SkinFrame.read, readExact_ok h, okBind, pureOk]

theorem cameraFrame_read_ok {s : Bytes} (h : 61 ≤ s.length) :
    CameraFrame.read s = Except.ok ({ unknown := s.take 61 }, s.drop 61) := by
  simp only [CameraFrame.read, readExact_ok h, okBind, pureOk]

theorem lightFrame_read_ok {s : Bytes} (h : 28 ≤ s.length) :
    LightFrame.read s = Except.ok ({ unknown := s.take 28 }, s.drop 28) := by
  simp only [LightFrame.read, readExact_ok h, okBind, pureOk]

theorem shadowFrame_read_ok {s : Bytes} (h : 9 ≤ s.length) :
    ShadowFrame.read s = Except.ok ({ unknown := s.take 9 }, s.drop 9) := by
  simp only [ShadowFrame.read, readExact_ok h, okBind, pureOk]

theorem motionFrame_read_ok {s : Bytes} (h : 111 ≤ s.length) :
    MotionFrame.read s = Except.ok (motionFrameOf s, s.drop 111) := by
  have h15 : 15 ≤ s.length := by omega
  have e1 := readString_ok h15
  have h2 : 4 ≤ (s.drop 15).length := by simp [List.length_drop]; omega
  have h3 : 4 ≤ (s.drop 19).length := by simp [List.length_drop]; omega
  have h4 : 4 ≤ (s.drop 23).length := by simp [List.length_drop]; omega
  have h5 : 4 ≤ (s.drop 27).length := by simp [List.length_drop]; omega
  have h6 : 4 ≤ (s.drop 31).length := by simp [List.length_drop]; omega
  have h7 : 4 ≤ (s.drop 35).length := by simp [List.length_drop]; omega
  have h8 : 4 ≤ (s.drop 39).length := by simp [List.length_drop]; omega
  have h9 : 4 ≤ (s.drop 43).length := by simp [List.length_drop]; omega
  have h10 : 64 ≤ (s.drop 47).length := by simp [List.length_drop]; omega
  simp only [MotionFrame.read, e1, okBind, readVecN,
    readU32LE_ok h2, readU32LE_ok h3, readU32LE_ok h4, readU32LE_ok h5,
    readU32LE_ok h6, readU32LE_ok h7, readU32LE_ok h8, readU32LE_ok h9,
    readExact_ok h10, pureOk, List.drop_drop, motionFrameOf]

theorem readN_ok {α : Type} {rd : Bytes → Except Error (α × Bytes)} {k : Nat}
    {f : Bytes → α}
    (hrd : ∀ s : Bytes, k ≤ s.length → rd s = Except.ok (f s, s.drop k)) :
    ∀ (n : Nat) (s : Bytes), k * n ≤ s.length →
      readN rd n s =
        Except.ok ((List.range n).map (fun i => f (s.drop (k * i))), s.drop (k * n)) := by
  intro n
  induction n with
  | zero =>
      intro s h
      simp [readN, pureOk]
  | succ m ih =>
      intro s h
      have hms : k * (m + 1) = k * m + k := by ring
      rw [hms] at h
      have hk : k ≤ s.length := by omega
      have hdl : (s.drop k).length = s.length - k := by simp
      have h2 : k * m ≤ (s.drop k).length := by rw [hdl]; omega
      simp only [readN, hrd s hk, okBind, ih (s.drop k) h2, pureOk]
      rw [List.range_succ_eq_map, List.map_cons, List.map_map]
      refine congrArg Except.ok (Prod.ext ?_ ?_)
      · show f (s.drop (k * 0)) :: _ = _
        rw [Nat.mul_zero, List.drop_zero]
        refine congrArg (f s :: ·) (List.map_congr_left ?_)
        intro i _
        show f ((s.drop k).drop (k * i)) = f (s.drop (k * Nat.succ i))
        have e1 : k * Nat.succ i = k + k * i := by rw [Nat.mul_succ]; omega
        rw [List.drop_drop, e1]
      · show (s.drop k).drop (k * m) = s.drop (k * (m + 1))
        have e2 : k * (m + 1) = k + k * m := by ring
        rw [List.drop_drop, e2]

theorem motionFrame_read_all_ok {s : Bytes} {n : Nat} (h4 : 4 ≤ s.length)
    (hn : leNat (s.take 4) = n) (hlen : 111 * n ≤ (s.drop 4).length) :
    MotionFrame.read_all s =
      Except.ok ((List.range n).map (fun i => motionFrameOf ((s.drop 4).drop (111 * i))),
        (s.drop 4).drop (111 * n)) := by
  simp only [MotionFrame.read_all, readU32LE_ok h4, hn, okBind,
    readN_ok (fun t ht => motionFrame_read_ok ht) n (s.drop 4) hlen]

theorem skinFrame_read_all_ok {s : Bytes} {n : Nat} (h4 : 4 ≤ s.length)
    (hn : leNat (s.take 4) = n) (hlen : 23 * n ≤ (s.drop 4).length) :
    SkinFrame.read_all s =
      Except.ok ((List.range n).map
          (fun i => ({ unknown := ((s.drop 4).drop (23 * i)).take 23 } : SkinFrame)),
        (s.drop 4).drop (23 * n)) := by
  simp only [SkinFrame.read_all, readU32LE_ok h4, hn, okBind,
    readN_ok (fun t ht => skinFrame_read_ok ht) n (s.drop 4) hlen]

theorem cameraFrame_read_all_ok {s : Bytes} {n : Nat} (h4 : 4 ≤ s.length)
    (hn : leNat (s.take 4) = n) (hlen : 61 * n ≤ (s.drop 4).length) :
    CameraFrame.read_all s =
      Except.ok ((List.range n).map
          (fun i => ({ unknown := ((s.drop 4).drop (61 * i)).take 61 } : CameraFrame)),
        (s.drop 4).drop (61 * n)) := by
  simp only [CameraFrame.read_all, readU32LE_ok h4, hn, okBind,
    readN_ok (fun t ht => cameraFrame_read_ok ht) n (s.drop 4) hlen]

theorem lightFrame_read_all_ok {s : Bytes} {n : Nat} (h4 : 4 ≤ s.length)
    (hn : leNat (s.take 4) = n) (hlen : 28 * n ≤ (s.drop 4).length) :
    LightFrame.read_all s =
      Except.ok ((List.range n).map
          (fun i => ({ unknown := ((s.drop 4).drop (28 * i)).take 28 } : LightFrame)),
        (s.drop 4).drop (28 * n)) := by
  simp only [LightFrame.read_all, readU32LE_ok h4, hn, okBind,
    readN_ok (fun t ht => lightFrame_read_ok ht) n (s.drop 4) hlen]

theorem shadowFrame_read_all_ok {s : Bytes} {n : Nat} (h4 : 4 ≤ s.length)
    (hn : leNat (s.take 4) = n) (hlen : 9 * n ≤ (s.drop 4).length) :
    ShadowFrame.read_all s =
      Except.ok ((List.range n).map
          (fun i => ({ unknown := ((s.drop 4).drop (9 * i)).take 9 } : ShadowFrame)),
        (s.drop 4).drop (9 * n)) := by
  simp only [ShadowFrame.read_all, readU32LE_ok h4, hn, okBind,
    readN_ok (fun t ht => shadowFrame_read_ok ht) n (s.drop 4) hlen]

/-- The motion-frame record of the end-to-end test in the claims: name
bytes are Shift-JIS "センター" null-padded to 15 bytes, frame number 0,
position [0,0,0], rotation [0,0,0,1] (1.0f is bit pattern 0x3F800000),
and 64 zero interpolation bytes. -/
def centerFrameBytes : Bytes :=
  [0x83, 0x5A, 0x83, 0x93, 0x83, 0x5E, 0x81, 0x5B] ++ List.replicate 7 0 ++
  [0, 0, 0, 0] ++ List.replicate 12 0 ++ List.replicate 12 0 ++ [0, 0, 0x80, 0x3F] ++
  List.replicate 64 0

/-- The expected decoded record of `centerFrameBytes`: 1.0f is bit
pattern 0x3F800000. -/
def centerFrame : MotionFrame :=
  { name := "センター", frame_no := 0, position := [0, 0, 0],
    rotation := [0, 0, 0, 0x3F800000], interpolation := List.replicate 64 0 }

/-- A complete VMD file consisting of the padded magic, a zero-filled
20-byte model name, and five zero frame counts. -/
def emptyVmdStream : Bytes :=
  VMD_HEADER_BYTES ++ List.replicate 4 0 ++ List.replicate 20 0 ++ List.replicate 20 0

/-- C1: for a fixed-width field, `read_string` truncates at the first
null byte, decodes the result with `SHIFT_JIS.decode`, falls back to
strict UTF-8 when Shift-JIS reports malformed input and to the lossy
Shift-JIS text when UTF-8 also fails — in that order, never returning a
decode error; in particular truncated bytes that strict UTF-8 accepts
while Shift-JIS reports malformed decode through the UTF-8 fallback. -/
theorem C1_readString_fallback_chain (size : Nat) (s : Bytes) (h : size ≤ s.length) :
    (readString size s =
      Except.ok
        (if (sjisDecode (truncateAtNull (s.take size))).2 then
            match utf8Strict (truncateAtNull (s.take size)) with
            | some cs => String.mk cs
            | none => String.mk (sjisDecode (truncateAtNull (s.take size))).1
          else String.mk (sjisDecode (truncateAtNull (s.take size))).1,
         s.drop size)) ∧
    (∀ cs : List Char, (sjisDecode (truncateAtNull (s.take size))).2 = true →
      utf8Strict (truncateAtNull (s.take size)) = some cs →
      readString size s = Except.ok (String.mk cs, s.drop size)) := by
  constructor
  · exact readString_ok h
  · intro cs hmal hutf
    rw [readString_ok h]
    simp only [fallbackChain, hmal, hutf, if_true]

/-- Witness for C1 at the field bytes 0xE3 0x81 0x82 (UTF-8 "あ", which
Shift-JIS reports as malformed). -/
theorem C1_readString_fallback_chain_witness :
    (3 ≤ ([0xE3, 0x81, 0x82] : Bytes).length) ∧
    ((sjisDecode (truncateAtNull (([0xE3, 0x81, 0x82] : Bytes).take 3))).2 = true) ∧
    (utf8Strict (truncateAtNull (([0xE3, 0x81, 0x82] : Bytes).take 3)) = some ['あ']) ∧
    readString 3 [0xE3, 0x81, 0x82] = Except.ok ("あ", []) := by
  refine ⟨by decide, by decide, by decide, ?_⟩
  have h := (C1_readString_fallback_chain 3 [0xE3, 0x81, 0x82] (by decide)).2
    ['あ'] (by decide) (by decide)
  simpa using h

/-- C10: when the fixed-width field contains no null byte, no truncation
occurs — the decoding chain is applied to the entire field and no byte is
lost, and the absence of a terminator is not an error. -/
theorem C10_readString_no_null (size : Nat) (s : Bytes) (h : size ≤ s.length)
    (hnn : ∀ b ∈ s.take size, b ≠ 0) :
    truncateAtNull (s.take size) = s.take size ∧
    readString size s = Except.ok (fallbackChain (s.take size), s.drop size) := by
  have htr : truncateAtNull (s.take size) = s.take size := by
    refine List.takeWhile_eq_self_iff.mpr ?_
    intro a ha
    simpa using hnn a ha
  refine ⟨htr, ?_⟩
  rw [readString_ok h, htr]

/-- Witness for C10 at a 4-byte field full of non-null katakana bytes. -/
theorem C10_readString_no_null_witness :
    (4 ≤ ([0x83, 0x5A, 0x83, 0x93] : Bytes).length) ∧
    (∀ b ∈ ([0x83, 0x5A, 0x83, 0x93] : Bytes).take 4, b ≠ 0) ∧
    (truncateAtNull (([0x83, 0x5A, 0x83, 0x93] : Bytes).take 4) =
      ([0x83, 0x5A, 0x83, 0x93] : Bytes).take 4 ∧
    readString 4 [0x83, 0x5A, 0x83, 0x93] =
      Except.ok (fallbackChain [0x83, 0x5A, 0x83, 0x93], [])) := by
  refine ⟨by decide, by decide, ?_⟩
  have h := C10_readString_no_null 4 [0x83, 0x5A, 0x83, 0x93] (by decide) (by decide)
  simpa using h

/-- C4: `read_index` reads the raw value as signed 8-bit, signed 16-bit
little-endian, or signed 32-bit little-endian according to the declared
width; a raw value the target index type can represent converts exactly,
and any other raw value yields `IndexOverflow` carrying the raw value
(exactly, as in the lossless 64-bit widening of the source). -/
theorem C4_readIndex_signed (t : IndexTarget) (s : Bytes) :
    (1 ≤ s.length →
      readIndex t IndexSize.I8 s =
        (if t.lo ≤ toI8 (leNat (s.take 1)) ∧ toI8 (leNat (s.take 1)) ≤ t.hi
         then Except.ok (toI8 (leNat (s.take 1)), s.drop 1)
         else Except.error (Error.IndexOverflow (toI8 (leNat (s.take 1)))))) ∧
    (2 ≤ s.length →
      readIndex t IndexSize.I16 s =
        (if t.lo ≤ toI16 (leNat (s.take 2)) ∧ toI16 (leNat (s.take 2)) ≤ t.hi
         then Except.ok (toI16 (leNat (s.take 2)), s.drop 2)
         else Except.error (Error.IndexOverflow (toI16 (leNat (s.take 2)))))) ∧
    (4 ≤ s.length →
      readIndex t IndexSize.I32 s =
        (if t.lo ≤ toI32 (leNat (s.take 4)) ∧ toI32 (leNat (s.take 4)) ≤ t.hi
         then Except.ok (toI32 (leNat (s.take 4)), s.drop 4)
         else Except.error (Error.IndexOverflow (toI32 (leNat (s.take 4)))))) := by
  refine ⟨fun h => ?_, fun h => ?_, fun h => ?_⟩
  · simp only [readIndex, readI8_ok h, okBind, IndexTarget.tryFrom]
    by_cases hc : t.lo ≤ toI8 (leNat (s.take 1)) ∧ toI8 (leNat (s.take 1)) ≤ t.hi
    · rw [if_pos hc, if_pos hc]; rfl
    · rw [if_neg hc, if_neg hc]
  · simp only [readIndex, readI16LE_ok h, okBind, IndexTarget.tryFrom]
    by_cases hc : t.lo ≤ toI16 (leNat (s.take 2)) ∧ toI16 (leNat (s.take 2)) ≤ t.hi
    · rw [if_pos hc, if_pos hc]; rfl
    · rw [if_neg hc, if_neg hc]
  · simp only [readIndex, readI32LE_ok h, okBind, IndexTarget.tryFrom]
    by_cases hc : t.lo ≤ toI32 (leNat (s.take 4)) ∧ toI32 (leNat (s.take 4)) ≤ t.hi
    · rw [if_pos hc, if_pos hc]; rfl
    · rw [if_neg hc, if_neg hc]

/-- Witness for C4: byte 0xC8 reads as the signed value -56; it converts
into a target covering [-128, 127] and overflows a target covering
[0, 127], carrying -56. -/
theorem C4_readIndex_signed_witness :
    (1 ≤ ([0xC8] : Bytes).length) ∧
    readIndex ⟨-128, 127⟩ IndexSize.I8 [0xC8] = Except.ok (-56, []) ∧
    readIndex ⟨0, 127⟩ IndexSize.I8 [0xC8] =
      Except.error (Error.IndexOverflow (-56)) := by
  refine ⟨by decide, ?_, ?_⟩
  · have h := (C4_readIndex_signed ⟨-128, 127⟩ [0xC8]).1 (by decide)
    rw [h]; decide
  · have h := (C4_readIndex_signed ⟨0, 127⟩ [0xC8]).1 (by decide)
    rw [h]; decide

/-- C3: `read_vertex_index` reads the raw value as unsigned 8-bit,
unsigned 16-bit little-endian, but signed 32-bit little-endian, with the
same `IndexOverflow` conversion semantics as the generic index; the raw
value of the narrow widths is never negative, and raw byte 200 decodes to
the unsigned value 200 whenever the target represents it. -/
theorem C3_readVertexIndex_widths (t : IndexTarget) (s : Bytes) :
    (1 ≤ s.length →
      readVertexIndex t IndexSize.I8 s =
        (if t.lo ≤ (leNat (s.take 1) : Int) ∧ (leNat (s.take 1) : Int) ≤ t.hi
         then Except.ok ((leNat (s.take 1) : Int), s.drop 1)
         else Except.error (Error.IndexOverflow (leNat (s.take 1) : Int))) ∧
      0 ≤ (leNat (s.take 1) : Int)) ∧
    (2 ≤ s.length →
      readVertexIndex t IndexSize.I16 s =
        (if t.lo ≤ (leNat (s.take 2) : Int) ∧ (leNat (s.take 2) : Int) ≤ t.hi
         then Except.ok ((leNat (s.take 2) : Int), s.drop 2)
         else Except.error (Error.IndexOverflow (leNat (s.take 2) : Int))) ∧
      0 ≤ (leNat (s.take 2) : Int)) ∧
    (4 ≤ s.length →
      readVertexIndex t IndexSize.I32 s =
        (if t.lo ≤ toI32 (leNat (s.take 4)) ∧ toI32 (leNat (s.take 4)) ≤ t.hi
         then Except.ok (toI32 (leNat (s.take 4)), s.drop 4)
         else Except.error (Error.IndexOverflow (toI32 (leNat (s.take 4)))))) ∧
    (∀ rest : Bytes, t.lo ≤ 200 → (200 : Int) ≤ t.hi →
      readVertexIndex t IndexSize.I8 (200 :: rest) = Except.ok (200, rest)) := by
  refine ⟨fun h => ⟨?_, by positivity⟩, fun h => ⟨?_, by positivity⟩, fun h => ?_,
    fun rest h1 h2 => ?_⟩
  · simp only [readVertexIndex, readU8_ok h, okBind, IndexTarget.tryFrom]
    by_cases hc : t.lo ≤ (leNat (s.take 1) : Int) ∧ (leNat (s.take 1) : Int) ≤ t.hi
    · rw [if_pos hc, if_pos hc]; rfl
    · rw [if_neg hc, if_neg hc]
  · simp only [readVertexIndex, readU16LE_ok h, okBind, IndexTarget.tryFrom]
    by_cases hc : t.lo ≤ (leNat (s.take 2) : Int) ∧ (leNat (s.take 2) : Int) ≤ t.hi
    · rw [if_pos hc, if_pos hc]; rfl
    · rw [if_neg hc, if_neg hc]
  · simp only [readVertexIndex, readI32LE_ok h, okBind, IndexTarget.tryFrom]
    by_cases hc : t.lo ≤ toI32 (leNat (s.take 4)) ∧ toI32 (leNat (s.take 4)) ≤ t.hi
    · rw [if_pos hc, if_pos hc]; rfl
    · rw [if_neg hc, if_neg hc]
  · have h1l : 1 ≤ ((200 :: rest : Bytes)).length := by simp
    simp only [readVertexIndex, readU8_ok h1l, okBind, IndexTarget.tryFrom]
    have hle : leNat (((200 :: rest : Bytes)).take 1) = 200 := by
      simp [leNat]
    rw [hle, if_pos ⟨by exact_mod_cast h1, by exact_mod_cast h2⟩]
    rfl

/-- C5: `VmdHeader::read` consumes 30 magic bytes and fails with
`InvalidHeader` exactly when the first 26 of them differ from
"Vocaloid Motion Data 0002\x00"; on a match the following 20-byte
null-terminated Shift-JIS(+fallback) field becomes the model name, the
4 magic padding bytes having been consumed but ignored. -/
theorem C5_vmdHeader_magic (s : Bytes) (h : 50 ≤ s.length) :
    (s.take 26 ≠ VMD_HEADER_BYTES → VmdHeader.read s = Except.error Error.InvalidHeader) ∧
    (s.take 26 = VMD_HEADER_BYTES →
      VmdHeader.read s =
        Except.ok ({ model_name := fallbackChain (truncateAtNull ((s.drop 30).take 20)) },
          s.drop 50)) := by
  have h30 : 30 ≤ s.length := by omega
  have h20 : 20 ≤ (s.drop 30).length := by simp [List.length_drop]; omega
  have e0 : (VMD_HEADER_BYTES : Bytes).length = 26 := by rfl
  have etk : (s.take 30).take 26 = s.take 26 := by
    rw [List.take_take]
    norm_num
  constructor <;> intro hc
  · simp only [VmdHeader.read, readExact_ok h30, okBind, e0, etk]
    rw [if_pos hc]
  · simp only [VmdHeader.read, readExact_ok h30, okBind, e0, etk]
    rw [if_neg (by simp [hc]), readString_ok h20, okBind, pureOk, List.drop_drop]

/-- Witness for C5: a valid 50-byte header with zero-filled name decodes
to the empty model name, and corrupting the first byte gives
`InvalidHeader`. -/
theorem C5_vmdHeader_magic_witness :
    (50 ≤ (VMD_HEADER_BYTES ++ List.replicate 24 0 : Bytes).length) ∧
    VmdHeader.read (VMD_HEADER_BYTES ++ List.replicate 24 0) =
      Except.ok ({ model_name := "" }, []) ∧
    VmdHeader.read (0x58 :: (VMD_HEADER_BYTES ++ List.replicate 24 0).drop 1) =
      Except.error Error.InvalidHeader := by
  refine ⟨by decide, ?_, ?_⟩
  · have h := (C5_vmdHeader_magic (VMD_HEADER_BYTES ++ List.replicate 24 0)
      (by decide)).2 (by decide)
    rw [h]; decide
  · have h := (C5_vmdHeader_magic (0x58 :: (VMD_HEADER_BYTES ++ List.replicate 24 0).drop 1)
      (by decide)).1 (by decide)
    rw [h]

/-- C6: `MotionFrame::read` decodes, in order, a 15-byte
Shift-JIS(+fallback) name, a 32-bit little-endian frame number, three
little-endian floats of position, four of rotation, and 64 raw
interpolation bytes; the record with Shift-JIS "センター" null-padded to
15 bytes, frame number 0, position [0,0,0], rotation [0,0,0,1] and zero
interpolation decodes to name "センター" and frame number 0. -/
theorem C6_motionFrame_record (s : Bytes) (h : 111 ≤ s.length) :
    MotionFrame.read s = Except.ok (motionFrameOf s, s.drop 111) ∧
    MotionFrame.read centerFrameBytes = Except.ok (centerFrame, []) :=
  ⟨motionFrame_read_ok h, by decide⟩

/-- Witness for C6 at the "センター" record itself. -/
theorem C6_motionFrame_record_witness :
    (111 ≤ centerFrameBytes.length) ∧
    (MotionFrame.read centerFrameBytes =
        Except.ok (motionFrameOf centerFrameBytes, centerFrameBytes.drop 111) ∧
      MotionFrame.read centerFrameBytes = Except.ok (centerFrame, [])) :=
  ⟨by decide, C6_motionFrame_record centerFrameBytes (by decide)⟩

/-- C7: every `read_all` reads a 4-byte little-endian count N and then
exactly N fixed-size records, returning them in on-disk order (the i-th
frame is decoded from the i-th record); a zero count consumes nothing
further and yields the empty sequence, so a valid header followed by five
zero counts decodes to five empty frame sequences. -/
theorem C7_counted_frame_arrays (s : Bytes) (n : Nat) (h4 : 4 ≤ s.length)
    (hn : leNat (s.take 4) = n) :
    (111 * n ≤ (s.drop 4).length →
      MotionFrame.read_all s =
        Except.ok ((List.range n).map (fun i => motionFrameOf ((s.drop 4).drop (111 * i))),
          (s.drop 4).drop (111 * n))) ∧
    (23 * n ≤ (s.drop 4).length →
      SkinFrame.read_all s =
        Except.ok ((List.range n).map
            (fun i => ({ unknown := ((s.drop 4).drop (23 * i)).take 23 } : SkinFrame)),
          (s.drop 4).drop (23 * n))) ∧
    (61 * n ≤ (s.drop 4).length →
      CameraFrame.read_all s =
        Except.ok ((List.range n).map
            (fun i => ({ unknown := ((s.drop 4).drop (61 * i)).take 61 } : CameraFrame)),
          (s.drop 4).drop (61 * n))) ∧
    (28 * n ≤ (s.drop 4).length →
      LightFrame.read_all s =
        Except.ok ((List.range n).map
            (fun i => ({ unknown := ((s.drop 4).drop (28 * i)).take 28 } : LightFrame)),
          (s.drop 4).drop (28 * n))) ∧
    (9 * n ≤ (s.drop 4).length →
      ShadowFrame.read_all s =
        Except.ok ((List.range n).map
            (fun i => ({ unknown := ((s.drop 4).drop (9 * i)).take 9 } : ShadowFrame)),
          (s.drop 4).drop (9 * n))) ∧
    (n = 0 →
      MotionFrame.read_all s = Except.ok ([], s.drop 4) ∧
      SkinFrame.read_all s = Except.ok ([], s.drop 4) ∧
      CameraFrame.read_all s = Except.ok ([], s.drop 4) ∧
      LightFrame.read_all s = Except.ok ([], s.drop 4) ∧
      ShadowFrame.read_all s = Except.ok ([], s.drop 4)) ∧
    (VmdHeader.read emptyVmdStream = Except.ok ({ model_name := "" }, List.replicate 20 0) ∧
      MotionFrame.read_all (List.replicate 20 0) = Except.ok ([], List.replicate 16 0) ∧
      SkinFrame.read_all (List.replicate 16 0) = Except.ok ([], List.replicate 12 0) ∧
      CameraFrame.read_all (List.replicate 12 0) = Except.ok ([], List.replicate 8 0) ∧
      LightFrame.read_all (List.replicate 8 0) = Except.ok ([], List.replicate 4 0) ∧
      ShadowFrame.read_all (List.replicate 4 0) = Except.ok ([], [])) := by
  refine ⟨fun hl => motionFrame_read_all_ok h4 hn hl,
    fun hl => skinFrame_read_all_ok h4 hn hl,
    fun hl => cameraFrame_read_all_ok h4 hn hl,
    fun hl => lightFrame_read_all_ok h4 hn hl,
    fun hl => shadowFrame_read_all_ok h4 hn hl,
    fun h0 => ?_, by decide⟩
  subst h0
  exact ⟨by simpa using motionFrame_read_all_ok h4 hn (by simp),
    by simpa using skinFrame_read_all_ok h4 hn (by simp),
    by simpa using cameraFrame_read_all_ok h4 hn (by simp),
    by simpa using lightFrame_read_all_ok h4 hn (by simp),
    by simpa using shadowFrame_read_all_ok h4 hn (by simp)⟩

/-- Witness for C7: a count of 2 followed by 18 bytes parses as two
9-byte shadow records in on-disk order. -/
theorem C7_counted_frame_arrays_witness :
    (4 ≤ ([2, 0, 0, 0, 1, 2, 3, 4, 5, 6, 7, 8, 9, 10, 11, 12, 13, 14, 15, 16, 17,
        18] : Bytes).length) ∧
    (leNat (([2, 0, 0, 0, 1, 2, 3, 4, 5, 6, 7, 8, 9, 10, 11, 12, 13, 14, 15, 16, 17,
        18] : Bytes).take 4) = 2) ∧
    ShadowFrame.read_all
        [2, 0, 0, 0, 1, 2, 3, 4, 5, 6, 7, 8, 9, 10, 11, 12, 13, 14, 15, 16, 17, 18] =
      Except.ok ([{ unknown := [1, 2, 3, 4, 5, 6, 7, 8, 9] },
        { unknown := [10, 11, 12, 13, 14, 15, 16, 17, 18] }], []) := by
  refine ⟨by decide, by decide, ?_⟩
  have h := ((C7_counted_frame_arrays
    [2, 0, 0, 0, 1, 2, 3, 4, 5, 6, 7, 8, 9, 10, 11, 12, 13, 14, 15, 16, 17, 18] 2
    (by decide) (by decide)).2.2.2.2.1) (by decide)
  rw [h]; decide

/-- Witness for C3: raw byte 200 at every relevant target. -/
theorem C3_readVertexIndex_widths_witness :
    (1 ≤ ([0xC8] : Bytes).length) ∧
    readVertexIndex ⟨0, 65535⟩ IndexSize.I8 [0xC8] = Except.ok (200, []) ∧
    readVertexIndex ⟨0, 100⟩ IndexSize.I8 [0xC8] =
      Except.error (Error.IndexOverflow 200) ∧
    readVertexIndex ⟨-100, 100⟩ IndexSize.I32 [0xFF, 0xFF, 0xFF, 0xFF] =
      Except.ok (-1, []) := by
  refine ⟨by decide, ?_, ?_, ?_⟩
  · have h := (C3_readVertexIndex_widths ⟨0, 65535⟩ [0xC8]).2.2.2 [] (by decide) (by decide)
    simpa using h
  · have h := ((C3_readVertexIndex_widths ⟨0, 100⟩ [0xC8]).1 (by decide)).1
    rw [h]; decide
  · have h := ((C3_readVertexIndex_widths ⟨-100, 100⟩ [0xFF, 0xFF, 0xFF, 0xFF]).2.2.1
      (by decide))
    rw [h]; decide

theorem errBind {ε α β : Type} (e : ε) (f : α → Except ε β) :
    (Except.error e >>= f : Except ε β) = Except.error e := rfl

theorem toI32_bounds (m : Nat) :
    -2147483648 ≤ toI32 m ∧ toI32 m < 2147483648 := by
  unfold toI32
  split <;> omega

theorem usizeOfI32_ofNat {n : Nat} (h : n < 2147483648) :
    usizeOfI32 (n : Int) = n := by
  unfold usizeOfI32
  omega

theorem usizeOfI32_neg {i : Int} (h1 : -2147483648 ≤ i) (h2 : i < 0) :
    usizeOfI32 i = (18446744073709551616 + i).toNat := by
  unfold usizeOfI32
  omega

/-- BOM sniffing is the identity dispatch on buffers that do not begin
with a byte-order mark. -/
theorem decodeBomSniff_of_bomFree {s : Bytes} (h : bomFree s)
    (fb : Bytes → List Char × Bool) : decodeBomSniff fb s = fb s := by
  obtain ⟨h1, h2, h3⟩ := h
  simp [decodeBomSniff, h1, h2, h3]

/-- C2 counterexample: with declared encoding UTF-8 and declared bytes
0xFF 0xFE — not valid UTF-8 — `read_text` succeeds with the empty string,
because `encoding_rs` BOM sniffing reroutes the buffer to UTF-16LE and
strips the mark; the claimed "DecodeText iff malformed for the declared
encoding" fails. -/
theorem C2_counterexample :
    readText TextEncoding.UTF8 [2, 0, 0, 0, 0xFF, 0xFE] = Except.ok ("", []) ∧
    utf8Strict [0xFF, 0xFE] = none ∧
    utf8Lossy [0xFF, 0xFE] = ([replChar, replChar], true) :=
  ⟨by decide, by decide, by decide⟩

/-- C2 (amended): `read_text` reads a 4-byte little-endian signed length
and that many bytes; decoding first applies BOM sniffing — a leading
UTF-8/UTF-16LE/UTF-16BE byte-order mark overrides the declared encoding
and is stripped — and `DecodeText` is returned exactly when the decoder
actually selected reports malformed input; a declared length of zero
yields the empty string. -/
theorem C2_readText_strict (enc : TextEncoding) (s : Bytes) (n : Nat)
    (h4 : 4 ≤ s.length) (hsz : toI32 (leNat (s.take 4)) = (n : Int))
    (hlen : n ≤ (s.drop 4).length) :
    (readText enc s = Except.error (Error.DecodeText "malformed text") ↔
      (decodeRs enc ((s.drop 4).take n)).2 = true) ∧
    ((decodeRs enc ((s.drop 4).take n)).2 = false →
      readText enc s =
        Except.ok (String.mk (decodeRs enc ((s.drop 4).take n)).1, (s.drop 4).drop n)) ∧
    (n = 0 → readText enc s = Except.ok ("", s.drop 4)) := by
  have hn31 : n < 2147483648 := by
    have hb := (toI32_bounds (leNat (s.take 4))).2
    omega
  have husz : usizeOfI32 (toI32 (leNat (s.take 4))) = n := by
    rw [hsz, usizeOfI32_ofNat hn31]
  have key : readText enc s =
      (if (decodeRs enc ((s.drop 4).take n)).2 then
        Except.error (Error.DecodeText "malformed text")
      else Except.ok (String.mk (decodeRs enc ((s.drop 4).take n)).1, (s.drop 4).drop n)) := by
    simp only [readText, readI32LE_ok h4, okBind, husz, readExact_ok hlen]
    split <;> rfl
  refine ⟨?_, ?_, ?_⟩
  · rw [key]
    constructor
    · intro he
      by_contra hf
      rw [if_neg (by simpa using hf)] at he
      exact Except.noConfusion he
    · intro hf
      rw [if_pos hf]
  · intro hf
    rw [key, if_neg (by simp [hf])]
  · intro h0
    subst h0
    rw [key]
    simp [decodeRs, decodeBomSniff, utf8Rs, utf16leRs]
    cases enc <;> rfl

/-- Witness for C2 (amended): valid and malformed two-byte UTF-8
buffers, and a zero length. -/
theorem C2_readText_strict_witness :
    (4 ≤ ([2, 0, 0, 0, 0xC3, 0xA9] : Bytes).length) ∧
    (toI32 (leNat (([2, 0, 0, 0, 0xC3, 0xA9] : Bytes).take 4)) = ((2 : Nat) : Int)) ∧
    ((2 : Nat) ≤ (([2, 0, 0, 0, 0xC3, 0xA9] : Bytes).drop 4).length) ∧
    readText TextEncoding.UTF8 [2, 0, 0, 0, 0xC3, 0xA9] = Except.ok ("é", []) ∧
    readText TextEncoding.UTF8 [2, 0, 0, 0, 0xC3, 0x41] =
      Except.error (Error.DecodeText "malformed text") ∧
    readText TextEncoding.UTF8 [0, 0, 0, 0, 9, 9] = Except.ok ("", [9, 9]) := by
  refine ⟨by decide, by decide, by decide, ?_, ?_, ?_⟩
  · have h := ((C2_readText_strict TextEncoding.UTF8 [2, 0, 0, 0, 0xC3, 0xA9] 2
      (by decide) (by decide) (by decide)).2.1) (by decide)
    rw [h]; decide
  · have h := ((C2_readText_strict TextEncoding.UTF8 [2, 0, 0, 0, 0xC3, 0x41] 2
      (by decide) (by decide) (by decide)).1).mpr (by decide)
    exact h
  · have h := ((C2_readText_strict TextEncoding.UTF8 [0, 0, 0, 0, 9, 9] 0
      (by decide) (by decide) (by decide)).2.2) rfl
    simpa using h

/-- C9: a negative declared length is never diagnosed as invalid in its
own right: it is reinterpreted as a huge unsigned 64-bit count (at least
2^64 - 2^31), and attempting to read that many bytes from any shorter
source ends in the propagated I/O failure, not a typed rejection. -/
theorem C9_negative_length (enc : TextEncoding) (s : Bytes) (h4 : 4 ≤ s.length)
    (hneg : toI32 (leNat (s.take 4)) < 0)
    (hfin : (s.drop 4).length < usizeOfI32 (toI32 (leNat (s.take 4)))) :
    readText enc s = Except.error Error.Io ∧
    18446744071562067968 ≤ usizeOfI32 (toI32 (leNat (s.take 4))) := by
  have hb := (toI32_bounds (leNat (s.take 4))).1
  constructor
  · simp only [readText, readI32LE_ok h4, okBind, readExact_err hfin, errBind]
  · rw [usizeOfI32_neg hb hneg]
    omega

/-- Witness for C9 at declared length -1. -/
theorem C9_negative_length_witness :
    (4 ≤ ([0xFF, 0xFF, 0xFF, 0xFF] : Bytes).length) ∧
    (toI32 (leNat (([0xFF, 0xFF, 0xFF, 0xFF] : Bytes).take 4)) < 0) ∧
    ((([0xFF, 0xFF, 0xFF, 0xFF] : Bytes).drop 4).length <
      usizeOfI32 (toI32 (leNat (([0xFF, 0xFF, 0xFF, 0xFF] : Bytes).take 4)))) ∧
    (readText TextEncoding.UTF8 [0xFF, 0xFF, 0xFF, 0xFF] = Except.error Error.Io ∧
      18446744071562067968 ≤
        usizeOfI32 (toI32 (leNat (([0xFF, 0xFF, 0xFF, 0xFF] : Bytes).take 4)))) :=
  ⟨by decide, by decide, by decide,
    C9_negative_length TextEncoding.UTF8 [0xFF, 0xFF, 0xFF, 0xFF]
      (by decide) (by decide) (by decide)⟩

theorem utf8Run_start_ascii {b : Nat} (h : b ≤ 0x7F) (rest : Bytes) :
    utf8Run 0 0 0x80 0xBF (b :: rest) = consC b (utf8Run 0 0 0x80 0xBF rest) := by
  simp [utf8Run, utf8Classify, h]

theorem utf8Run_start_lead {b cp k lo hi : Nat}
    (hcl : utf8Classify b = U8Next.lead cp k lo hi) (rest : Bytes) :
    utf8Run 0 0 0x80 0xBF (b :: rest) = utf8Run cp k lo hi rest := by
  simp [utf8Run, hcl]

theorem utf8Run_cont_more {cp needed lower upper b : Nat} (h1 : needed ≠ 0)
    (h2 : needed ≠ 1) (hin : lower ≤ b ∧ b ≤ upper) (rest : Bytes) :
    utf8Run cp needed lower upper (b :: rest) =
      utf8Run (cp * 64 + (b - 0x80)) (needed - 1) 0x80 0xBF rest := by
  simp [utf8Run, h1, h2, hin]

theorem utf8Run_cont_last {cp lower upper b : Nat} (hin : lower ≤ b ∧ b ≤ upper)
    (rest : Bytes) :
    utf8Run cp 1 lower upper (b :: rest) =
      consC (cp * 64 + (b - 0x80)) (utf8Run 0 0 0x80 0xBF rest) := by
  simp [utf8Run, hin]

/-- Decoding one UTF-8-encoded character from the front of a stream
yields that character's code point and continues behind it. -/
theorem utf8Run_encodeChar (c : Char) (tail : Bytes) :
    utf8Run 0 0 0x80 0xBF (utf8EncodeChar c ++ tail) =
      consC c.toNat (utf8Run 0 0 0x80 0xBF tail) := by
  have hval : c.toNat < 0xD800 ∨ (0xDFFF < c.toNat ∧ c.toNat < 0x110000) := by
    have h := c.valid
    rcases h with h | ⟨ha, hb⟩
    · exact Or.inl h
    · exact Or.inr ⟨ha, hb⟩
  set n := c.toNat with hn
  by_cases h1 : n < 0x80
  · have he : utf8EncodeChar c = [n] := by
      unfold utf8EncodeChar
      rw [← hn, if_pos h1]
    rw [he, List.cons_append, List.nil_append]
    exact utf8Run_start_ascii (by omega) tail
  by_cases h2 : n < 0x800
  · have he : utf8EncodeChar c = [0xC0 + n / 64, 0x80 + n % 64] := by
      unfold utf8EncodeChar
      rw [← hn, if_neg h1, if_pos h2]
    have hcl : utf8Classify (0xC0 + n / 64) =
        U8Next.lead ((0xC0 + n / 64) - 0xC0) 1 0x80 0xBF := by
      unfold utf8Classify
      rw [if_neg (by omega), if_pos (by constructor <;> omega)]
    rw [he]
    simp only [List.cons_append, List.nil_append]
    rw [utf8Run_start_lead hcl, utf8Run_cont_last (by constructor <;> omega)]
    have harith : (0xC0 + n / 64 - 0xC0) * 64 + (0x80 + n % 64 - 0x80) = n := by omega
    rw [harith]
  by_cases h3 : n < 0x10000
  · have he : utf8EncodeChar c =
        [0xE0 + n / 4096, 0x80 + n / 64 % 64, 0x80 + n % 64] := by
      unfold utf8EncodeChar
      rw [← hn, if_neg h1, if_neg h2, if_pos h3]
    have hcl : utf8Classify (0xE0 + n / 4096) =
        U8Next.lead ((0xE0 + n / 4096) - 0xE0) 2
          (if 0xE0 + n / 4096 = 0xE0 then 0xA0 else 0x80)
          (if 0xE0 + n / 4096 = 0xED then 0x9F else 0xBF) := by
      unfold utf8Classify
      rw [if_neg (by omega), if_neg (by rintro ⟨ha, hb⟩; omega),
        if_pos (by constructor <;> omega)]
    have hin1 : (if 0xE0 + n / 4096 = 0xE0 then 0xA0 else 0x80) ≤ 0x80 + n / 64 % 64 ∧
        0x80 + n / 64 % 64 ≤ (if 0xE0 + n / 4096 = 0xED then 0x9F else 0xBF) := by
      constructor
      · split <;> omega
      · split
        · rcases hval with hv | ⟨hv, _⟩ <;> omega
        · omega
    rw [he]
    simp only [List.cons_append, List.nil_append]
    rw [utf8Run_start_lead hcl, utf8Run_cont_more (by omega) (by omega) hin1,
      utf8Run_cont_last (by constructor <;> omega)]
    have harith : ((0xE0 + n / 4096 - 0xE0) * 64 + (0x80 + n / 64 % 64 - 0x80)) * 64 +
        (0x80 + n % 64 - 0x80) = n := by omega
    rw [harith]
  · have h4 : n < 0x110000 := by
      rcases hval with hv | ⟨_, hv⟩ <;> omega
    have he : utf8EncodeChar c =
        [0xF0 + n / 262144, 0x80 + n / 4096 % 64, 0x80 + n / 64 % 64, 0x80 + n % 64] := by
      unfold utf8EncodeChar
      rw [← hn, if_neg h1, if_neg h2, if_neg h3]
    have hcl : utf8Classify (0xF0 + n / 262144) =
        U8Next.lead ((0xF0 + n / 262144) - 0xF0) 3
          (if 0xF0 + n / 262144 = 0xF0 then 0x90 else 0x80)
          (if 0xF0 + n / 262144 = 0xF4 then 0x8F else 0xBF) := by
      unfold utf8Classify
      rw [if_neg (by omega), if_neg (by rintro ⟨ha, hb⟩; omega),
        if_neg (by rintro ⟨ha, hb⟩; omega), if_pos (by constructor <;> omega)]
    have hin1 : (if 0xF0 + n / 262144 = 0xF0 then 0x90 else 0x80) ≤ 0x80 + n / 4096 % 64 ∧
        0x80 + n / 4096 % 64 ≤ (if 0xF0 + n / 262144 = 0xF4 then 0x8F else 0xBF) := by
      constructor
      · split <;> omega
      · split <;> omega
    rw [he]
    simp only [List.cons_append, List.nil_append]
    rw [utf8Run_start_lead hcl, utf8Run_cont_more (by omega) (by omega) hin1,
      utf8Run_cont_more (by omega) (by omega) (by constructor <;> omega),
      utf8Run_cont_last (by constructor <;> omega)]
    have harith : (((0xF0 + n / 262144 - 0xF0) * 64 + (0x80 + n / 4096 % 64 - 0x80)) * 64 +
        (0x80 + n / 64 % 64 - 0x80)) * 64 + (0x80 + n % 64 - 0x80) = n := by omega
    rw [harith]

/-- UTF-8 decoding is a left inverse of UTF-8 encoding. -/
theorem utf8Lossy_encode (cs : List Char) : utf8Lossy (utf8Encode cs) = (cs, false) := by
  induction cs with
  | nil => rfl
  | cons c cs ih =>
      show utf8Run 0 0 0x80 0xBF (utf8EncodeChar c ++ utf8Encode cs) = _
      rw [utf8Run_encodeChar]
      show consC c.toNat (utf8Lossy (utf8Encode cs)) = _
      rw [ih]
      simp [consC, Char.ofNat_toNat]

theorem utf16Run_byte (leadS : Option Nat) (b : Nat) (rest : Bytes) :
    utf16Run false none leadS (b :: rest) = utf16Run false (some b) leadS rest := by
  simp [utf16Run]

theorem utf16Run_unit_bmp {lb b : Nat}
    (hu : lb + 256 * b < 0xD800 ∨ 0xDFFF < lb + 256 * b) (rest : Bytes) :
    utf16Run false (some lb) none (b :: rest) =
      consC (lb + 256 * b) (utf16Run false none none rest) := by
  simp [utf16Run, hu]

theorem utf16Run_unit_lead {lb b : Nat} (h1 : 0xD800 ≤ lb + 256 * b)
    (h2 : lb + 256 * b ≤ 0xDBFF) (rest : Bytes) :
    utf16Run false (some lb) none (b :: rest) =
      utf16Run false none (some (lb + 256 * b)) rest := by
  have hnot : ¬(lb + 256 * b < 0xD800 ∨ 0xDFFF < lb + 256 * b) := by omega
  simp [utf16Run, hnot, h2]

theorem utf16Run_unit_trail {ls lb b : Nat} (h1 : 0xDC00 ≤ lb + 256 * b)
    (h2 : lb + 256 * b ≤ 0xDFFF) (rest : Bytes) :
    utf16Run false (some lb) (some ls) (b :: rest) =
      consC (0x10000 + (ls - 0xD800) * 1024 + (lb + 256 * b - 0xDC00))
        (utf16Run false none none rest) := by
  simp [utf16Run, h1, h2]

/-- Decoding one UTF-16LE-encoded character from the front of a stream
yields that character's code point and continues behind it. -/
theorem utf16Run_encodeChar (c : Char) (tail : Bytes) :
    utf16Run false none none (utf16leEncodeChar c ++ tail) =
      consC c.toNat (utf16Run false none none tail) := by
  have hval : c.toNat < 0xD800 ∨ (0xDFFF < c.toNat ∧ c.toNat < 0x110000) := by
    have h := c.valid
    rcases h with h | ⟨ha, hb⟩
    · exact Or.inl h
    · exact Or.inr ⟨ha, hb⟩
  set n := c.toNat with hn
  by_cases h1 : n < 0x10000
  · have he : utf16leEncodeChar c = [n % 256, n / 256] := by
      unfold utf16leEncodeChar
      rw [← hn, if_pos h1]
    have hu : n % 256 + 256 * (n / 256) = n := by omega
    rw [he]
    simp only [List.cons_append, List.nil_append]
    rw [utf16Run_byte]
    rcases hval with hv | ⟨hv, _⟩
    · rw [utf16Run_unit_bmp (Or.inl (by omega)), hu]
    · rw [utf16Run_unit_bmp (Or.inr (by omega)), hu]
  · have h2 : n < 0x110000 := by
      rcases hval with hv | ⟨_, hv⟩ <;> omega
    have he : utf16leEncodeChar c =
        [(0xD800 + (n - 0x10000) / 1024) % 256, (0xD800 + (n - 0x10000) / 1024) / 256,
         (0xDC00 + (n - 0x10000) % 1024) % 256, (0xDC00 + (n - 0x10000) % 1024) / 256] := by
      unfold utf16leEncodeChar
      rw [← hn, if_neg h1]
    have hhi : (0xD800 + (n - 0x10000) / 1024) % 256 +
        256 * ((0xD800 + (n - 0x10000) / 1024) / 256) = 0xD800 + (n - 0x10000) / 1024 := by
      omega
    have hlo : (0xDC00 + (n - 0x10000) % 1024) % 256 +
        256 * ((0xDC00 + (n - 0x10000) % 1024) / 256) = 0xDC00 + (n - 0x10000) % 1024 := by
      omega
    rw [he]
    simp only [List.cons_append, List.nil_append]
    rw [utf16Run_byte, utf16Run_unit_lead (by omega) (by omega), hhi,
      utf16Run_byte, utf16Run_unit_trail (by omega) (by omega), hlo]
    have harith : 0x10000 + (0xD800 + (n - 0x10000) / 1024 - 0xD800) * 1024 +
        (0xDC00 + (n - 0x10000) % 1024 - 0xDC00) = n := by omega
    rw [harith]

/-- UTF-16LE decoding is a left inverse of UTF-16LE encoding. -/
theorem utf16leLossy_encode (cs : List Char) :
    utf16leLossy (utf16leEncode cs) = (cs, false) := by
  induction cs with
  | nil => rfl
  | cons c cs ih =>
      show utf16Run false none none (utf16leEncodeChar c ++ utf16leEncode cs) = _
      rw [utf16Run_encodeChar]
      show consC c.toNat (utf16leLossy (utf16leEncode cs)) = _
      rw [ih]
      simp [consC, Char.ofNat_toNat]

/-- Reading a length-prefixed payload: the stream built from the 4-byte
little-endian length of a payload, the payload, and trailing bytes,
decodes the payload with the BOM-sniffing decoder of the declared
encoding and leaves exactly the trailing bytes. -/
theorem readText_payload (enc : TextEncoding) (payload rest : Bytes)
    (hlen : payload.length < 2147483648) :
    readText enc (i32leBytes payload.length ++ payload ++ rest) =
      (if (decodeRs enc payload).2 then Except.error (Error.DecodeText "malformed text")
       else Except.ok (String.mk (decodeRs enc payload).1, rest)) := by
  have h4 : ((i32leBytes payload.length ++ payload ++ rest : Bytes)).take 4 =
      i32leBytes payload.length := by
    rw [List.append_assoc, show (4 : Nat) = (i32leBytes payload.length).length from rfl,
      List.take_left]
  have hdrop : ((i32leBytes payload.length ++ payload ++ rest : Bytes)).drop 4 =
      payload ++ rest := by
    rw [List.append_assoc, show (4 : Nat) = (i32leBytes payload.length).length from rfl,
      List.drop_left]
  have hlen4 : 4 ≤ ((i32leBytes payload.length ++ payload ++ rest : Bytes)).length := by
    simp [i32leBytes]
  have hle : leNat (i32leBytes payload.length) = payload.length := by
    simp only [leNat, i32leBytes, List.foldr]
    omega
  have hto : toI32 payload.length = (payload.length : Int) := by
    unfold toI32
    have : payload.length % 4294967296 = payload.length := by omega
    rw [this, if_pos (by omega)]
  have husz : usizeOfI32 (toI32 (leNat (((i32leBytes payload.length ++ payload ++ rest :
      Bytes)).take 4))) = payload.length := by
    rw [h4, hle, hto, usizeOfI32_ofNat hlen]
  have hex : readExact payload.length (payload ++ rest) = Except.ok (payload, rest) := by
    have hl : payload.length ≤ (payload ++ rest : Bytes).length := by simp
    rw [readExact_ok hl]
    rw [List.take_left, List.drop_left]
  simp only [readText, readI32LE_ok hlen4, okBind, husz, hdrop, hex]
  split <;> rfl

/-- C8 counterexample: the single-character string U+FEFF encodes in
UTF-8 as the UTF-8 byte-order mark, which `read_text` strips during BOM
sniffing, so the round trip returns the empty string instead of the
original. -/
theorem C8_counterexample :
    utf8Encode [Char.ofNat 0xFEFF] = [0xEF, 0xBB, 0xBF] ∧
    readText TextEncoding.UTF8
        (i32leBytes (utf8Encode [Char.ofNat 0xFEFF]).length ++
          utf8Encode [Char.ofNat 0xFEFF]) = Except.ok ("", []) ∧
    String.mk [Char.ofNat 0xFEFF] ≠ "" :=
  ⟨by decide, by decide, by decide⟩

/-- C8 (amended): for every string whose encoded byte sequence does not
begin with one of the three byte-order-mark patterns (in particular the
string does not begin with U+FEFF, nor — on the UTF-16LE path — with
U+FFFE) and whose encoded length fits the signed 32-bit prefix, encoding
with the declared encoding, prefixing the 4-byte little-endian length,
and decoding with `read_text` under the same declared encoding returns
exactly the original string. -/
theorem C8_roundtrip_no_bom (cs : List Char) (rest : Bytes) :
    ((utf8Encode cs).length < 2147483648 → bomFree (utf8Encode cs) →
      readText TextEncoding.UTF8
          (i32leBytes (utf8Encode cs).length ++ utf8Encode cs ++ rest) =
        Except.ok (String.mk cs, rest)) ∧
    ((utf16leEncode cs).length < 2147483648 → bomFree (utf16leEncode cs) →
      readText TextEncoding.UTF16LE
          (i32leBytes (utf16leEncode cs).length ++ utf16leEncode cs ++ rest) =
        Except.ok (String.mk cs, rest)) := by
  constructor <;> intro hlen hbf
  · rw [readText_payload _ _ _ hlen]
    have hd : decodeRs TextEncoding.UTF8 (utf8Encode cs) = (cs, false) := by
      show decodeBomSniff utf8Lossy (utf8Encode cs) = _
      rw [decodeBomSniff_of_bomFree hbf, utf8Lossy_encode]
    rw [hd]
    rfl
  · rw [readText_payload _ _ _ hlen]
    have hd : decodeRs TextEncoding.UTF16LE (utf16leEncode cs) = (cs, false) := by
      show decodeBomSniff utf16leLossy (utf16leEncode cs) = _
      rw [decodeBomSniff_of_bomFree hbf, utf16leLossy_encode]
    rw [hd]
    rfl

/-- Witness for C8 (amended) on the string "Aあ" under both encodings. -/
theorem C8_roundtrip_no_bom_witness :
    ((utf8Encode ['A', 'あ']).length < 2147483648) ∧
    bomFree (utf8Encode ['A', 'あ']) ∧
    ((utf16leEncode ['A', 'あ']).length < 2147483648) ∧
    bomFree (utf16leEncode ['A', 'あ']) ∧
    readText TextEncoding.UTF8
        (i32leBytes (utf8Encode ['A', 'あ']).length ++ utf8Encode ['A', 'あ'] ++ [7]) =
      Except.ok ("Aあ", [7]) ∧
    readText TextEncoding.UTF16LE
        (i32leBytes (utf16leEncode ['A', 'あ']).length ++ utf16leEncode ['A', 'あ'] ++ [7]) =
      Except.ok ("Aあ", [7]) := by
  refine ⟨by decide, by decide, by decide, by decide, ?_, ?_⟩
  · have h := (C8_roundtrip_no_bom ['A', 'あ'] [7]).1 (by decide) (by decide)
    simpa using h
  · have h := (C8_roundtrip_no_bom ['A', 'あ'] [7]).2 (by decide) (by decide)
    simpa using h

end Mmd
